import Mathlib

set_option linter.unusedSectionVars false

/-!
Shallow embedding of `chem_abund.py` (`ChemAbund`)

This file models the abundance reference-frame conversion engine of
`turbospec_wrapper` (`chem_abund.py`, class `ChemAbund`) and proves the
spec's claims about it.

Modelling conventions:
* Python float values are modelled exactly: the value type `V` is an
  arbitrary additive commutative group (the code only adds and subtracts
  values), covering real scalars and numpy arrays pointwise.
* The dynamically named attributes (`setattr(self, f'{element.lower()}_{ref}', v)`)
  are modelled as an association list from attribute-name strings to values;
  `getattr` on a missing attribute is Python's `AttributeError`, modelled in
  the `Except PyError` monad.
* `self.references` is a Python `set`; it is modelled as an insertion-ordered
  duplicate-free list (`addRef`).  The only place iteration order of the set
  matters is the `runlist` loop of `set_solarref`, whose per-tag passes write
  disjoint attribute families, so any determinization is observationally equal.
* The external lookup `abund_utils.solar_abund` (not part of this repository;
  the spec treats it as an external service) is a parameter
  `sa : String → List (String × V)`; a Python dict subscript `d[k]` that can
  raise `KeyError` is modelled by an association-list lookup in `Except`.
* Python exception classes that the code actually raises are the constructors
  of `PyError`.
-/

/-- The Python exceptions the modelled code can raise. -/
inductive PyError where
  | typeError (msg : String)
  | indexError (msg : String)
  | attributeError (name : String)
  | keyError (key : String)
  deriving DecidableEq, Repr

deriving instance DecidableEq for Except

/-- Python's ASCII `str.lower()` (Lean's `String.toLower` is extensionally the
same map but is defined by well-founded recursion on byte positions, which the
kernel cannot evaluate; this structural version reduces). -/
def pyLower (s : String) : String :=
  ⟨s.data.map Char.toLower⟩

/- Abundance values: the code only ever adds and subtracts them, so the model
is generic over an additive commutative group (covering Python floats as exact
reals, and numpy arrays pointwise). -/
variable {V : Type} [AddCommGroup V]

/-- The attribute table of a `ChemAbund` instance: attribute name ↦ value. -/
abbrev Attrs (V : Type) : Type := List (String × V)

/-- `getattr(self, name)`, returning `none` when the attribute is absent. -/
def getAttr (attrs : Attrs V) (name : String) : Option V :=
  (attrs.find? (fun p => p.1 == name)).map Prod.snd

/-- `setattr(self, name, v)`: overwrite or add the binding for `name`. -/
def setAttr (attrs : Attrs V) (name : String) (v : V) : Attrs V :=
  (name, v) :: attrs.filter (fun p => !(p.1 == name))

/-- Python dict subscript `d[k]`, `none` when the key is absent (`KeyError`). -/
def dictGet (d : List (String × V)) (k : String) : Option V :=
  (d.find? (fun p => p.1 == k)).map Prod.snd

/-- The attribute name `f'{a}_{b}'` synthesised by the code
(`a` is already the lowered element name, `b` the system suffix). -/
def mkName (a b : String) : String :=
  a ++ "_" ++ b

/-- `self.references.add r` on the set of materialized tags. -/
def addRef (refs : List String) (r : String) : List String :=
  if r ∈ refs then refs else refs ++ [r]

/-- Python `str.title()` restricted to the single-word tags used by the code
(e.g. `"fe".title() = "Fe"`). -/
def pyTitle (s : String) : String :=
  (pyLower s).capitalize

/-- The state of a `ChemAbund` instance. -/
structure ChemAbund (V : Type) where
  elements : List String
  references : List String
  attrs : Attrs V
  solarref : String
  deriving DecidableEq, Repr

/-- The loop of `ChemAbund._set_data`:
for each input element, store its value under `{el.lower()}_h` when the
element (lowered) is the input reference itself, else under
`{el.lower()}_{reference.lower()}`. -/
def setDataLoop (reference : String) : List (String × V) → Attrs V → Attrs V
  | [], attrs => attrs
  | (el, v) :: rest, attrs =>
    if (pyLower el) = reference then
      setDataLoop reference rest (setAttr attrs (mkName (pyLower el) "h") v)
    else
      setDataLoop reference rest (setAttr attrs (mkName (pyLower el) (pyLower reference)) v)

/-- `ChemAbund._set_data` (the `reference` argument arrives already lowered
from `__init__`, exactly as in the code). -/
def ChemAbund.setData (s : ChemAbund V) (abundances : List (String × V))
    (reference : String) : ChemAbund V :=
  { s with
    attrs := setDataLoop reference abundances s.attrs
    elements := abundances.map Prod.fst
    references := addRef s.references (pyLower reference) }

/-- The loop of `ChemAbund._ref_to_h`: for every element other than the
reference, `x_h := x_ref + ref_h`. -/
def refToHLoop (reference : String) : List String → Attrs V → Except PyError (Attrs V)
  | [], attrs => .ok attrs
  | el :: rest, attrs =>
    if el = reference then refToHLoop reference rest attrs
    else
      match getAttr attrs (mkName (pyLower el) (pyLower reference)) with
      | none => .error (.attributeError (mkName (pyLower el) (pyLower reference)))
      | some xref =>
        match getAttr attrs (mkName (pyLower reference) "h") with
        | none => .error (.attributeError (mkName (pyLower reference) "h"))
        | some refh =>
          refToHLoop reference rest (setAttr attrs (mkName (pyLower el) "h") (xref + refh))

/-- `ChemAbund._ref_to_h`. -/
def ChemAbund.refToH (s : ChemAbund V) (reference : String) : Except PyError (ChemAbund V) :=
  match refToHLoop reference s.elements s.attrs with
  | .error e => .error e
  | .ok attrs => .ok { s with attrs := attrs, references := addRef s.references "h" }

/-- The loop of `ChemAbund._h_to_ref`: for every element other than the
reference, `x_ref := x_h - ref_h`. -/
def hToRefLoop (reference : String) : List String → Attrs V → Except PyError (Attrs V)
  | [], attrs => .ok attrs
  | el :: rest, attrs =>
    if el = reference then hToRefLoop reference rest attrs
    else
      match getAttr attrs (mkName (pyLower el) "h") with
      | none => .error (.attributeError (mkName (pyLower el) "h"))
      | some xh =>
        match getAttr attrs (mkName (pyLower reference) "h") with
        | none => .error (.attributeError (mkName (pyLower reference) "h"))
        | some refh =>
          hToRefLoop reference rest
            (setAttr attrs (mkName (pyLower el) (pyLower reference)) (xh - refh))

/-- `ChemAbund._h_to_ref`. -/
def ChemAbund.hToRef (s : ChemAbund V) (reference : String) : Except PyError (ChemAbund V) :=
  match hToRefLoop reference s.elements s.attrs with
  | .error e => .error e
  | .ok attrs =>
    .ok { s with attrs := attrs, references := addRef s.references (pyLower reference) }

/-- The loop of `ChemAbund._logeps_to_h`: for every element,
`x_h := x_logeps - solar_dict[element]`. -/
def logepsToHLoop (solar : List (String × V)) : List String → Attrs V → Except PyError (Attrs V)
  | [], attrs => .ok attrs
  | el :: rest, attrs =>
    match getAttr attrs (mkName (pyLower el) "logeps") with
    | none => .error (.attributeError (mkName (pyLower el) "logeps"))
    | some xlog =>
      match dictGet solar el with
      | none => .error (.keyError el)
      | some xsol =>
        logepsToHLoop solar rest (setAttr attrs (mkName (pyLower el) "h") (xlog - xsol))

/-- `ChemAbund._logeps_to_h`. -/
def ChemAbund.logepsToH (s : ChemAbund V) (solar : List (String × V)) :
    Except PyError (ChemAbund V) :=
  match logepsToHLoop solar s.elements s.attrs with
  | .error e => .error e
  | .ok attrs => .ok { s with attrs := attrs, references := addRef s.references "h" }

/-- The loop of `ChemAbund._h_to_logeps`: for every element,
`x_logeps := x_h + solar_dict[element]`. -/
def hToLogepsLoop (solar : List (String × V)) : List String → Attrs V → Except PyError (Attrs V)
  | [], attrs => .ok attrs
  | el :: rest, attrs =>
    match getAttr attrs (mkName (pyLower el) "h") with
    | none => .error (.attributeError (mkName (pyLower el) "h"))
    | some xh =>
      match dictGet solar el with
      | none => .error (.keyError el)
      | some xsol =>
        hToLogepsLoop solar rest (setAttr attrs (mkName (pyLower el) "logeps") (xh + xsol))

/-- `ChemAbund._h_to_logeps`. -/
def ChemAbund.hToLogeps (s : ChemAbund V) (solar : List (String × V)) :
    Except PyError (ChemAbund V) :=
  match hToLogepsLoop solar s.elements s.attrs with
  | .error e => .error e
  | .ok attrs => .ok { s with attrs := attrs, references := addRef s.references "logeps" }

/-- The `for ref in runlist: self._h_to_ref(ref.title())` loop of
`ChemAbund.set_solarref`. -/
def foldHToRef : List String → ChemAbund V → Except PyError (ChemAbund V)
  | [], s => .ok s
  | r :: rest, s =>
    match s.hToRef (pyTitle r) with
    | .error e => .error e
    | .ok s' => foldHToRef rest s'

/-- `ChemAbund.set_solarref`.  `sa` is the external `abund_utils.solar_abund`
lookup (excluded from this repository; the spec treats it as an external
service returning a solar composition table for a reference name).
The claims under scrutiny all pass a non-`None` reference name, so the
argument is a plain `String`. -/
def ChemAbund.setSolarref (sa : String → List (String × V)) (s : ChemAbund V)
    (solar_reference : String) : Except PyError (ChemAbund V) :=
  let solar_dict := sa solar_reference
  let step : Except PyError (ChemAbund V) :=
    if "logeps" ∈ s.references then
      match s.logepsToH solar_dict with
      | .error e => .error e
      | .ok s1 =>
        let runlist := s1.references.filter (fun r => r != "logeps" && r != "h")
        match foldHToRef runlist s1 with
        | .error e => .error e
        | .ok s2 =>
          if "Fe" ∈ s2.elements ∧ "fe" ∉ s2.references then s2.hToRef "Fe" else .ok s2
    else if "h" ∈ s.references then
      s.hToLogeps solar_dict
    else
      .ok s
  match step with
  | .error e => .error e
  | .ok s3 => .ok { s3 with solarref := (pyLower solar_reference) }

/-- The advisory message printed by `calculate_xref` when `h` is missing. -/
def xrefMessage (reference : String) : String :=
  s!"x_{reference} abundances not calculated.  Please set a solar reference first."

/-- `ChemAbund.calculate_xref`.  The first component is the list of lines the
call prints (the non-fatal report), the second the resulting state. -/
def ChemAbund.calculateXref (s : ChemAbund V) (reference : String) :
    List String × Except PyError (ChemAbund V) :=
  if "h" ∈ s.references then ([], s.hToRef reference)
  else ([xrefMessage reference], .ok s)

/-- The advisory message printed by `format_abundances` for a tag that is not
materialized. -/
def formatMessage (reference : String) : String :=
  s!"{reference} has not been calculated for these abundances please set a solar reference or calculate relative to this reference first."

/-- The output-building loop of `ChemAbund.format_abundances`: the element
equal to the requested reference contributes its `_h` attribute, every other
element its `_{reference.lower()}` attribute. -/
def formatLoop (attrs : Attrs V) (reference : String) :
    List String → Except PyError (List (String × V))
  | [] => .ok []
  | el :: rest =>
    let name :=
      if el = reference then mkName (pyLower el) "h" else mkName (pyLower el) (pyLower reference)
    match getAttr attrs name with
    | none => .error (.attributeError name)
    | some v =>
      match formatLoop attrs reference rest with
      | .error e => .error e
      | .ok out => .ok ((el, v) :: out)

/-- `ChemAbund.format_abundances`.  The method never writes to `self`
(Python: it contains no `setattr`), so no state is returned: the first
component is the printed report lines, the second the returned value
(`none` models Python's implicit `return None` on the not-materialized path). -/
def ChemAbund.formatAbundances (s : ChemAbund V) (reference : String) :
    List String × Except PyError (Option (List (String × V))) :=
  if (pyLower reference) ∉ s.references then ([formatMessage reference], .ok none)
  else
    match formatLoop s.attrs reference s.elements with
    | .error e => ([], .error e)
    | .ok out => ([], .ok (some out))

/-- The part of `ChemAbund.__init__` that follows the `_set_data` call:
derive `h` when the input system is an element, apply an optional solar
reference, and auto-materialize the Fe system. -/
def initAfterSet (sa : String → List (String × V)) (s : ChemAbund V)
    (reference : String) (solar_reference : Option String) : Except PyError (ChemAbund V) :=
  let step1 : Except PyError (ChemAbund V) :=
    if (pyLower reference) ≠ "logeps" ∧ (pyLower reference) ≠ "h" then s.refToH reference
    else .ok s
  match step1 with
  | .error e => .error e
  | .ok s1 =>
    let step2 : Except PyError (ChemAbund V) :=
      match solar_reference with
      | some sr => s1.setSolarref sa sr
      | none => .ok s1
    match step2 with
    | .error e => .error e
    | .ok s2 =>
      if "Fe" ∈ s2.elements ∧ "fe" ∉ s2.references then s2.hToRef "Fe" else .ok s2

/-- `ChemAbund.__init__`.  `abundances = none` models Python's
`abundances=None` default (the "no input data" construction). -/
def ChemAbund.init (sa : String → List (String × V))
    (abundances : Option (List (String × V))) (reference : String)
    (solar_reference : Option String) : Except PyError (ChemAbund V) :=
  match abundances with
  | none =>
    .error (.typeError
      "Please enter abundances as an input dictionary in the form \x7belement: array\x7d")
  | some ab =>
    let s0 : ChemAbund V := ⟨[], [], [], "None"⟩
    if (pyLower reference) = "logeps" ∨ (pyLower reference) = "h" then
      initAfterSet sa (s0.setData ab (pyLower reference)) reference solar_reference
    else if (ab.find? (fun p => p.1 == reference)).isNone then
      .error (.indexError
        s!"{reference} was given as the reference but is not in the provided abundances.")
    else
      initAfterSet sa (s0.setData ab (pyLower reference)) reference solar_reference


/-! ## Concrete stores used by the witnesses -/

/-- C4 witness store: two elements materialized in `logeps` (values over `ℤ`,
an instance of the additive group the model is generic over). -/
def c4s : ChemAbund ℤ :=
  ⟨["Mg", "Ca"], ["logeps"], [("mg_logeps", 5), ("ca_logeps", 4)], "None"⟩
/-- The solar composition table used by the C4 witness. -/
def c4solar : List (String × ℤ) := [("Mg", 1), ("Ca", 1)]
/-- The state of the C4 witness after `_logeps_to_h`. -/
def c4s1 : ChemAbund ℤ :=
  ⟨["Mg", "Ca"], ["logeps", "h"],
    [("ca_h", 3), ("mg_h", 4), ("mg_logeps", 5), ("ca_logeps", 4)], "None"⟩
/-- C3 witness: the starting store. -/
def c3s : ChemAbund ℤ :=
  ⟨["C", "Fe"], ["h", "fe"], [("c_fe", 1), ("fe_h", 7), ("c_h", 8)], "None"⟩
/-- C3 witness: the store after `calculate_xref('fe')`. -/
def c3s' : ChemAbund ℤ :=
  ⟨["C", "Fe"], ["h", "fe"],
    [("fe_fe", 0), ("c_fe", 1), ("fe_h", 7), ("c_h", 8)], "None"⟩
/-- C9 witness store: only `logeps` materialized. -/
def c9s : ChemAbund ℤ := ⟨["C"], ["logeps"], [("c_logeps", 8)], "None"⟩
/-- C10 witness: a store with `logeps` materialized, sent through
`set_solarref`, and a store with `h` materialized, sent through
`calculate_xref`. -/
def c10s : ChemAbund ℤ := ⟨["Fe"], ["logeps"], [("fe_logeps", 7)], "None"⟩
/-- The second C10 witness store. -/
def c10t : ChemAbund ℤ := ⟨["C", "Fe"], ["h"], [("c_h", 8), ("fe_h", 7)], "None"⟩
/-- C2 witness/example store: the result of constructing from
`{C: 8, Fe: 7}` with input system `Fe`. -/
def c2s : ChemAbund ℤ :=
  ⟨["C", "Fe"], ["fe", "h"], [("c_h", 15), ("fe_h", 7), ("c_fe", 8)], "None"⟩
/-- C1 witness: solar tables R1 and R2 differing in Mg. -/
def c1sa : String → List (String × ℤ) := fun r =>
  if r = "R1" then [("Mg", 1), ("Ca", 1)] else [("Mg", 2), ("Ca", 1)]
/-- C1 witness: store built from logeps under R1 with the mg system
materialized (so `ca_mg` holds the stale R1 value -1). -/
def c1s : ChemAbund ℤ :=
  ⟨["Mg", "Ca"], ["logeps", "h", "mg"],
    [("ca_mg", -1), ("mg_mg", 0), ("ca_h", 3), ("mg_h", 4),
      ("ca_logeps", 4), ("mg_logeps", 5)], "r1"⟩
/-- C1 witness: the same store after `set_solarref("R2")`: `h` refreshed and
`ca_mg` recomputed to 0 = 3 - 3. -/
def c1s' : ChemAbund ℤ :=
  ⟨["Mg", "Ca"], ["logeps", "h", "mg"],
    [("ca_mg", 0), ("ca_h", 3), ("mg_h", 3), ("mg_mg", 0),
      ("ca_logeps", 4), ("mg_logeps", 5)], "r2"⟩
/-! ## Basic lemmas about the attribute table and name synthesis -/

theorem find?_filter_key (m n : String) (h : m ≠ n) (attrs : Attrs V) :
    (attrs.filter (fun p => !(p.1 == n))).find? (fun p => p.1 == m)
      = attrs.find? (fun p => p.1 == m) := by
  induction attrs with
  | nil => rfl
  | cons a rest ih =>
    by_cases hm : a.1 = m
    · have h1 : (a.1 == n) = false := by
        simp only [beq_eq_false_iff_ne, ne_eq, hm]
        exact h
      have h2 : (a.1 == m) = true := by simp [hm]
      simp [List.filter_cons, h1, List.find?_cons, h2]
    · have h2 : (a.1 == m) = false := by simp [hm]
      by_cases hn : a.1 = n
      · have h1 : (!(a.1 == n)) = false := by simp [hn]
        simp [List.filter_cons, h1, List.find?_cons, h2, ih]
      · have h1 : (!(a.1 == n)) = true := by simp [hn]
        simp [List.filter_cons, h1, List.find?_cons, h2, ih]

theorem getAttr_setAttr_self (attrs : Attrs V) (n : String) (v : V) :
    getAttr (setAttr attrs n v) n = some v := by
  simp [getAttr, setAttr, List.find?_cons]

theorem getAttr_setAttr_ne (attrs : Attrs V) {m n : String} (v : V) (h : m ≠ n) :
    getAttr (setAttr attrs n v) m = getAttr attrs m := by
  have h2 : (n == m) = false := by simp [Ne.symm h]
  simp only [getAttr, setAttr, List.find?_cons, h2]
  rw [find?_filter_key m n h]

theorem underscore_split {ys ys' : List Char} :
    ∀ {xs xs' : List Char}, '_' ∉ xs → '_' ∉ xs' →
      xs ++ '_' :: ys = xs' ++ '_' :: ys' → xs = xs' ∧ ys = ys' := by
  intro xs
  induction xs with
  | nil =>
    intro xs' _ hx' h
    cases xs' with
    | nil => simpa using h
    | cons c tl =>
      simp only [List.nil_append, List.cons_append, List.cons.injEq] at h
      exact absurd (by rw [← h.1]; exact List.mem_cons_self _ _) hx'
  | cons c tl ih =>
    intro xs' hx hx' h
    cases xs' with
    | nil =>
      simp only [List.cons_append, List.nil_append, List.cons.injEq] at h
      exact absurd (by rw [h.1]; exact List.mem_cons_self _ _) hx
    | cons c' tl' =>
      simp only [List.cons_append, List.cons.injEq] at h
      have htl := ih (fun hm => hx (List.mem_cons_of_mem _ hm))
        (fun hm => hx' (List.mem_cons_of_mem _ hm)) h.2
      exact ⟨by rw [h.1, htl.1], htl.2⟩

theorem mkName_inj {a a' b b' : String} (ha : '_' ∉ a.data) (ha' : '_' ∉ a'.data) :
    mkName a b = mkName a' b' ↔ a = a' ∧ b = b' := by
  constructor
  · intro h
    have hd : a.data ++ '_' :: b.data = a'.data ++ '_' :: b'.data := by
      have := congrArg String.data h
      simpa [mkName, List.append_assoc] using this
    obtain ⟨h1, h2⟩ := underscore_split ha ha' hd
    exact ⟨String.ext h1, String.ext h2⟩
  · rintro ⟨rfl, rfl⟩
    rfl

theorem mkName_ne_snd {a a' b b' : String} (ha : '_' ∉ a.data) (ha' : '_' ∉ a'.data)
    (hb : b ≠ b') : mkName a b ≠ mkName a' b' :=
  fun h => hb ((mkName_inj ha ha').1 h).2

theorem mkName_ne_fst {a a' b b' : String} (ha : '_' ∉ a.data) (ha' : '_' ∉ a'.data)
    (hne : a ≠ a') : mkName a b ≠ mkName a' b' :=
  fun h => hne ((mkName_inj ha ha').1 h).1

theorem mem_addRef_of_mem {refs : List String} {r t : String} (h : t ∈ refs) :
    t ∈ addRef refs r := by
  unfold addRef
  split
  · exact h
  · exact List.mem_append_of_mem_left _ h

theorem mem_addRef {refs : List String} {r t : String} :
    t ∈ addRef refs r ↔ t ∈ refs ∨ t = r := by
  unfold addRef
  split
  · rename_i hin
    constructor
    · exact Or.inl
    · rintro (h | rfl)
      · exact h
      · exact hin
  · simp

theorem addRef_nodup {refs : List String} {r : String} (h : refs.Nodup) :
    (addRef refs r).Nodup := by
  unfold addRef
  split
  · exact h
  · rename_i hni
    simpa [List.nodup_append, h] using hni

/-! ## Frame and write lemmas for the conversion loops -/

theorem hToRefLoop_frame {reference : String} :
    ∀ {els : List String} {attrs attrs' : Attrs V},
      hToRefLoop reference els attrs = .ok attrs' →
      ∀ n : String,
        (∀ el ∈ els, el ≠ reference → n ≠ mkName (pyLower el) (pyLower reference)) →
        getAttr attrs' n = getAttr attrs n := by
  intro els
  induction els with
  | nil =>
    intro attrs attrs' h n _
    cases h
    rfl
  | cons el rest ih =>
    intro attrs attrs' h n hn
    by_cases he : el = reference
    · rw [hToRefLoop, if_pos he] at h
      exact ih h n (fun e hmem => hn e (List.mem_cons_of_mem _ hmem))
    · rw [hToRefLoop, if_neg he] at h
      split at h
      · cases h
      · split at h
        · cases h
        · rw [ih h n (fun e hmem => hn e (List.mem_cons_of_mem _ hmem))]
          exact getAttr_setAttr_ne _ _ (hn el (List.mem_cons_self _ _) he)

theorem hToRefLoop_write {reference : String}
    (hrc : '_' ∉ (pyLower reference).data) (hrh : (pyLower reference) ≠ "h") :
    ∀ {els : List String} {attrs attrs' : Attrs V},
      hToRefLoop reference els attrs = .ok attrs' →
      (∀ el ∈ els, '_' ∉ (pyLower el).data) →
      (els.map pyLower).Nodup →
      ∀ el ∈ els, el ≠ reference →
        ∃ xh refh, getAttr attrs (mkName (pyLower el) "h") = some xh ∧
          getAttr attrs (mkName (pyLower reference) "h") = some refh ∧
          getAttr attrs' (mkName (pyLower el) (pyLower reference)) = some (xh - refh) := by
  intro els
  induction els with
  | nil =>
    intro _ _ _ _ _ el hmem
    exact absurd hmem (List.not_mem_nil el)
  | cons el0 rest ih =>
    intro attrs attrs' h hclean hnodup el hmem hne
    rw [List.map_cons, List.nodup_cons] at hnodup
    by_cases he : el0 = reference
    · rw [hToRefLoop, if_pos he] at h
      rcases List.mem_cons.1 hmem with rfl | hmem'
      · exact absurd he hne
      · exact ih h (fun e hm => hclean e (List.mem_cons_of_mem _ hm)) hnodup.2 el hmem' hne
    · rw [hToRefLoop, if_neg he] at h
      split at h
      · cases h
      · split at h
        · cases h
        · rename_i o1 xh0 hx o2 refh0 hr
          rcases List.mem_cons.1 hmem with rfl | hmem'
          · -- the head element: its write survives the rest of the loop
            refine ⟨xh0, refh0, hx, hr, ?_⟩
            rw [hToRefLoop_frame h _ ?_]
            · exact getAttr_setAttr_self _ _ _
            · intro e hm hne'
              exact mkName_ne_fst (hclean _ (List.mem_cons_self _ _))
                (hclean e (List.mem_cons_of_mem _ hm))
                (fun hlow => hnodup.1 (hlow ▸ List.mem_map_of_mem pyLower hm))
          · -- an element of the tail: transfer the reads back across the head write
            obtain ⟨xh, refh, hx', hr', hw⟩ :=
              ih h (fun e hm => hclean e (List.mem_cons_of_mem _ hm)) hnodup.2 el hmem' hne
            refine ⟨xh, refh, ?_, ?_, hw⟩
            · rw [← hx', getAttr_setAttr_ne]
              exact mkName_ne_snd (hclean el hmem) (hclean el0 (List.mem_cons_self _ _))
                (fun hh => hrh hh.symm)
            · rw [← hr', getAttr_setAttr_ne]
              exact mkName_ne_snd hrc (hclean el0 (List.mem_cons_self _ _))
                (fun hh => hrh hh.symm)

theorem refToHLoop_frame {reference : String} :
    ∀ {els : List String} {attrs attrs' : Attrs V},
      refToHLoop reference els attrs = .ok attrs' →
      ∀ n : String,
        (∀ el ∈ els, el ≠ reference → n ≠ mkName (pyLower el) "h") →
        getAttr attrs' n = getAttr attrs n := by
  intro els
  induction els with
  | nil =>
    intro attrs attrs' h n _
    cases h
    rfl
  | cons el rest ih =>
    intro attrs attrs' h n hn
    by_cases he : el = reference
    · rw [refToHLoop, if_pos he] at h
      exact ih h n (fun e hmem => hn e (List.mem_cons_of_mem _ hmem))
    · rw [refToHLoop, if_neg he] at h
      split at h
      · cases h
      · split at h
        · cases h
        · rw [ih h n (fun e hmem => hn e (List.mem_cons_of_mem _ hmem))]
          exact getAttr_setAttr_ne _ _ (hn el (List.mem_cons_self _ _) he)

theorem refToHLoop_write {reference : String}
    (hrc : '_' ∉ (pyLower reference).data) (hrh : (pyLower reference) ≠ "h") :
    ∀ {els : List String} {attrs attrs' : Attrs V},
      refToHLoop reference els attrs = .ok attrs' →
      (∀ el ∈ els, '_' ∉ (pyLower el).data) →
      (els.map pyLower).Nodup →
      (∀ el ∈ els, el ≠ reference → (pyLower el) ≠ (pyLower reference)) →
      ∀ el ∈ els, el ≠ reference →
        ∃ xr refh, getAttr attrs (mkName (pyLower el) (pyLower reference)) = some xr ∧
          getAttr attrs (mkName (pyLower reference) "h") = some refh ∧
          getAttr attrs' (mkName (pyLower el) "h") = some (xr + refh) := by
  intro els
  induction els with
  | nil =>
    intro _ _ _ _ _ _ el hmem
    exact absurd hmem (List.not_mem_nil el)
  | cons el0 rest ih =>
    intro attrs attrs' h hclean hnodup hlow el hmem hne
    rw [List.map_cons, List.nodup_cons] at hnodup
    by_cases he : el0 = reference
    · rw [refToHLoop, if_pos he] at h
      rcases List.mem_cons.1 hmem with rfl | hmem'
      · exact absurd he hne
      · exact ih h (fun e hm => hclean e (List.mem_cons_of_mem _ hm)) hnodup.2
          (fun e hm => hlow e (List.mem_cons_of_mem _ hm)) el hmem' hne
    · rw [refToHLoop, if_neg he] at h
      split at h
      · cases h
      · split at h
        · cases h
        · rename_i o1 xr0 hx o2 refh0 hr
          rcases List.mem_cons.1 hmem with rfl | hmem'
          · refine ⟨xr0, refh0, hx, hr, ?_⟩
            rw [refToHLoop_frame h _ ?_]
            · exact getAttr_setAttr_self _ _ _
            · intro e hm hne'
              exact mkName_ne_fst (hclean _ (List.mem_cons_self _ _))
                (hclean e (List.mem_cons_of_mem _ hm))
                (fun hl => hnodup.1 (hl ▸ List.mem_map_of_mem pyLower hm))
          · obtain ⟨xr, refh, hx', hr', hw⟩ :=
              ih h (fun e hm => hclean e (List.mem_cons_of_mem _ hm)) hnodup.2
                (fun e hm => hlow e (List.mem_cons_of_mem _ hm)) el hmem' hne
            refine ⟨xr, refh, ?_, ?_, hw⟩
            · rw [← hx', getAttr_setAttr_ne]
              exact mkName_ne_snd (hclean el hmem) (hclean el0 (List.mem_cons_self _ _)) hrh
            · rw [← hr', getAttr_setAttr_ne]
              exact mkName_ne_fst hrc (hclean el0 (List.mem_cons_self _ _))
                (fun hl => hlow el0 (List.mem_cons_self _ _) he hl.symm)

theorem logepsToHLoop_frame {solar : List (String × V)} :
    ∀ {els : List String} {attrs attrs' : Attrs V},
      logepsToHLoop solar els attrs = .ok attrs' →
      ∀ n : String, (∀ el ∈ els, n ≠ mkName (pyLower el) "h") →
        getAttr attrs' n = getAttr attrs n := by
  intro els
  induction els with
  | nil =>
    intro attrs attrs' h n _
    cases h
    rfl
  | cons el rest ih =>
    intro attrs attrs' h n hn
    rw [logepsToHLoop] at h
    split at h
    · cases h
    · split at h
      · cases h
      · rw [ih h n (fun e hmem => hn e (List.mem_cons_of_mem _ hmem))]
        exact getAttr_setAttr_ne _ _ (hn el (List.mem_cons_self _ _))

theorem logepsToHLoop_write {solar : List (String × V)} :
    ∀ {els : List String} {attrs attrs' : Attrs V},
      logepsToHLoop solar els attrs = .ok attrs' →
      (∀ el ∈ els, '_' ∉ (pyLower el).data) →
      (els.map pyLower).Nodup →
      ∀ el ∈ els,
        ∃ lx sx, getAttr attrs (mkName (pyLower el) "logeps") = some lx ∧
          dictGet solar el = some sx ∧
          getAttr attrs' (mkName (pyLower el) "h") = some (lx - sx) := by
  intro els
  induction els with
  | nil =>
    intro _ _ _ _ _ el hmem
    exact absurd hmem (List.not_mem_nil el)
  | cons el0 rest ih =>
    intro attrs attrs' h hclean hnodup el hmem
    rw [List.map_cons, List.nodup_cons] at hnodup
    rw [logepsToHLoop] at h
    split at h
    · cases h
    · split at h
      · cases h
      · rename_i o1 lx0 hx o2 sx0 hs
        rcases List.mem_cons.1 hmem with rfl | hmem'
        · refine ⟨lx0, sx0, hx, hs, ?_⟩
          rw [logepsToHLoop_frame h _ ?_]
          · exact getAttr_setAttr_self _ _ _
          · intro e hm
            exact mkName_ne_fst (hclean _ (List.mem_cons_self _ _))
              (hclean e (List.mem_cons_of_mem _ hm))
              (fun hl => hnodup.1 (hl ▸ List.mem_map_of_mem pyLower hm))
        · obtain ⟨lx, sx, hx', hs', hw⟩ :=
            ih h (fun e hm => hclean e (List.mem_cons_of_mem _ hm)) hnodup.2 el hmem'
          refine ⟨lx, sx, ?_, hs', hw⟩
          rw [← hx', getAttr_setAttr_ne]
          exact mkName_ne_snd (hclean el hmem) (hclean el0 (List.mem_cons_self _ _))
            (by decide)

theorem hToLogepsLoop_frame {solar : List (String × V)} :
    ∀ {els : List String} {attrs attrs' : Attrs V},
      hToLogepsLoop solar els attrs = .ok attrs' →
      ∀ n : String, (∀ el ∈ els, n ≠ mkName (pyLower el) "logeps") →
        getAttr attrs' n = getAttr attrs n := by
  intro els
  induction els with
  | nil =>
    intro attrs attrs' h n _
    cases h
    rfl
  | cons el rest ih =>
    intro attrs attrs' h n hn
    rw [hToLogepsLoop] at h
    split at h
    · cases h
    · split at h
      · cases h
      · rw [ih h n (fun e hmem => hn e (List.mem_cons_of_mem _ hmem))]
        exact getAttr_setAttr_ne _ _ (hn el (List.mem_cons_self _ _))

theorem hToLogepsLoop_write {solar : List (String × V)} :
    ∀ {els : List String} {attrs attrs' : Attrs V},
      hToLogepsLoop solar els attrs = .ok attrs' →
      (∀ el ∈ els, '_' ∉ (pyLower el).data) →
      (els.map pyLower).Nodup →
      ∀ el ∈ els,
        ∃ xh sx, getAttr attrs (mkName (pyLower el) "h") = some xh ∧
          dictGet solar el = some sx ∧
          getAttr attrs' (mkName (pyLower el) "logeps") = some (xh + sx) := by
  intro els
  induction els with
  | nil =>
    intro _ _ _ _ _ el hmem
    exact absurd hmem (List.not_mem_nil el)
  | cons el0 rest ih =>
    intro attrs attrs' h hclean hnodup el hmem
    rw [List.map_cons, List.nodup_cons] at hnodup
    rw [hToLogepsLoop] at h
    split at h
    · cases h
    · split at h
      · cases h
      · rename_i o1 xh0 hx o2 sx0 hs
        rcases List.mem_cons.1 hmem with rfl | hmem'
        · refine ⟨xh0, sx0, hx, hs, ?_⟩
          rw [hToLogepsLoop_frame h _ ?_]
          · exact getAttr_setAttr_self _ _ _
          · intro e hm
            exact mkName_ne_fst (hclean _ (List.mem_cons_self _ _))
              (hclean e (List.mem_cons_of_mem _ hm))
              (fun hl => hnodup.1 (hl ▸ List.mem_map_of_mem pyLower hm))
        · obtain ⟨xh, sx, hx', hs', hw⟩ :=
            ih h (fun e hm => hclean e (List.mem_cons_of_mem _ hm)) hnodup.2 el hmem'
          refine ⟨xh, sx, ?_, hs', hw⟩
          rw [← hx', getAttr_setAttr_ne]
          exact mkName_ne_snd (hclean el hmem) (hclean el0 (List.mem_cons_self _ _))
            (by decide)

/-! ## Inversion and preservation lemmas for the instance methods -/

theorem ChemAbund.refToH_ok {s s' : ChemAbund V} {reference : String}
    (h : s.refToH reference = .ok s') :
    refToHLoop reference s.elements s.attrs = .ok s'.attrs ∧
      s'.elements = s.elements ∧ s'.references = addRef s.references "h" ∧
      s'.solarref = s.solarref := by
  unfold ChemAbund.refToH at h
  split at h
  · cases h
  · rename_i attrs1 heq
    cases h
    exact ⟨heq, rfl, rfl, rfl⟩

theorem ChemAbund.hToRef_ok {s s' : ChemAbund V} {reference : String}
    (h : s.hToRef reference = .ok s') :
    hToRefLoop reference s.elements s.attrs = .ok s'.attrs ∧
      s'.elements = s.elements ∧
      s'.references = addRef s.references (pyLower reference) ∧
      s'.solarref = s.solarref := by
  unfold ChemAbund.hToRef at h
  split at h
  · cases h
  · rename_i attrs1 heq
    cases h
    exact ⟨heq, rfl, rfl, rfl⟩

theorem ChemAbund.logepsToH_ok {s s' : ChemAbund V} {solar : List (String × V)}
    (h : s.logepsToH solar = .ok s') :
    logepsToHLoop solar s.elements s.attrs = .ok s'.attrs ∧
      s'.elements = s.elements ∧ s'.references = addRef s.references "h" ∧
      s'.solarref = s.solarref := by
  unfold ChemAbund.logepsToH at h
  split at h
  · cases h
  · rename_i attrs1 heq
    cases h
    exact ⟨heq, rfl, rfl, rfl⟩

theorem ChemAbund.hToLogeps_ok {s s' : ChemAbund V} {solar : List (String × V)}
    (h : s.hToLogeps solar = .ok s') :
    hToLogepsLoop solar s.elements s.attrs = .ok s'.attrs ∧
      s'.elements = s.elements ∧ s'.references = addRef s.references "logeps" ∧
      s'.solarref = s.solarref := by
  unfold ChemAbund.hToLogeps at h
  split at h
  · cases h
  · rename_i attrs1 heq
    cases h
    exact ⟨heq, rfl, rfl, rfl⟩

theorem foldHToRef_ok :
    ∀ {rs : List String} {s s' : ChemAbund V}, foldHToRef rs s = .ok s' →
      s'.elements = s.elements ∧ s'.solarref = s.solarref ∧
      (∀ t ∈ s.references, t ∈ s'.references) := by
  intro rs
  induction rs with
  | nil =>
    intro s s' h
    cases h
    exact ⟨rfl, rfl, fun t ht => ht⟩
  | cons r rest ih =>
    intro s s' h
    rw [foldHToRef] at h
    split at h
    · cases h
    · rename_i s1 heq
      obtain ⟨hl, he, hr, hs⟩ := ChemAbund.hToRef_ok heq
      obtain ⟨ihe, ihs, ihr⟩ := ih h
      exact ⟨ihe.trans he, ihs.trans hs, fun t ht =>
        ihr t (hr ▸ mem_addRef_of_mem ht)⟩

theorem foldHToRef_frame :
    ∀ {rs : List String} {s s' : ChemAbund V}, foldHToRef rs s = .ok s' →
      ∀ n : String,
        (∀ r ∈ rs, ∀ el ∈ s.elements, el ≠ pyTitle r →
          n ≠ mkName (pyLower el) ((pyLower (pyTitle r)))) →
        getAttr s'.attrs n = getAttr s.attrs n := by
  intro rs
  induction rs with
  | nil =>
    intro s s' h n _
    cases h
    rfl
  | cons r rest ih =>
    intro s s' h n hn
    rw [foldHToRef] at h
    split at h
    · cases h
    · rename_i s1 heq
      obtain ⟨hl, he, hr, hs⟩ := ChemAbund.hToRef_ok heq
      have h1 : getAttr s1.attrs n = getAttr s.attrs n :=
        hToRefLoop_frame hl n
          (fun el hmem hne => hn r (List.mem_cons_self _ _) el hmem hne)
      rw [← h1]
      exact ih h n (fun r' hr' el hmem hne =>
        hn r' (List.mem_cons_of_mem _ hr') el (he ▸ hmem) hne)

theorem foldHToRef_append {rs₁ rs₂ : List String} :
    ∀ {s : ChemAbund V}, foldHToRef (rs₁ ++ rs₂) s =
      match foldHToRef rs₁ s with
      | .error e => .error e
      | .ok s1 => foldHToRef rs₂ s1 := by
  induction rs₁ with
  | nil => intro s; rfl
  | cons r rest ih =>
    intro s
    rw [List.cons_append, foldHToRef, foldHToRef]
    split <;> rename_i hsplit
    · rfl
    · exact ih

theorem ChemAbund.setSolarref_ok_logeps {sa : String → List (String × V)}
    {s s' : ChemAbund V} {R : String}
    (hlog : "logeps" ∈ s.references) (h : s.setSolarref sa R = .ok s') :
    ∃ s1 s2 s3,
      s.logepsToH (sa R) = .ok s1 ∧
      foldHToRef (s1.references.filter (fun r => r != "logeps" && r != "h")) s1 = .ok s2 ∧
      (("Fe" ∈ s2.elements ∧ "fe" ∉ s2.references) ∧ s2.hToRef "Fe" = .ok s3 ∨
        ¬("Fe" ∈ s2.elements ∧ "fe" ∉ s2.references) ∧ s3 = s2) ∧
      s' = { s3 with solarref := (pyLower R) } := by
  simp only [ChemAbund.setSolarref] at h
  rw [if_pos hlog] at h
  split at h
  · cases h
  · rename_i x3 s3 heq
    cases h
    split at heq
    · cases heq
    · rename_i x1 s1 heq1
      split at heq
      · cases heq
      · rename_i x2 s2 heq2
        by_cases hc : "Fe" ∈ s2.elements ∧ "fe" ∉ s2.references
        · rw [if_pos hc] at heq
          exact ⟨s1, s2, s3, heq1, heq2, Or.inl ⟨hc, heq⟩, rfl⟩
        · rw [if_neg hc] at heq
          cases heq
          exact ⟨s1, s3, s3, heq1, heq2, Or.inr ⟨hc, rfl⟩, rfl⟩

theorem ChemAbund.setSolarref_ok_h {sa : String → List (String × V)}
    {s s' : ChemAbund V} {R : String}
    (hlog : "logeps" ∉ s.references) (hh : "h" ∈ s.references)
    (h : s.setSolarref sa R = .ok s') :
    ∃ s3, s.hToLogeps (sa R) = .ok s3 ∧ s' = { s3 with solarref := (pyLower R) } := by
  simp only [ChemAbund.setSolarref] at h
  rw [if_neg hlog, if_pos hh] at h
  split at h
  · cases h
  · rename_i x3 s3 heq
    cases h
    exact ⟨s3, heq, rfl⟩

theorem ChemAbund.setSolarref_none {sa : String → List (String × V)}
    {s : ChemAbund V} {R : String}
    (hlog : "logeps" ∉ s.references) (hh : "h" ∉ s.references) :
    s.setSolarref sa R = .ok { s with solarref := (pyLower R) } := by
  simp only [ChemAbund.setSolarref]
  rw [if_neg hlog, if_neg hh]

/-! ## Claim C4: logeps ↔ h round trip -/

/-- **C4.** For any abundance set with a solar composition table materialized to
both `logeps` and `h` (i.e. on which `_logeps_to_h` succeeded), every element's
`h` value equals its `logeps` value minus the solar value for that element, and
re-deriving `logeps` from `h` via `_h_to_logeps` with the same table recovers
the original `logeps` value exactly (arithmetic is exact over `V`). -/
theorem logeps_h_roundtrip (s s1 : ChemAbund V) (solar : List (String × V))
    (hclean : ∀ el ∈ s.elements, '_' ∉ (pyLower el).data)
    (hnodup : (s.elements.map pyLower).Nodup)
    (h1 : s.logepsToH solar = .ok s1) :
    (∀ el ∈ s.elements, ∃ lx sx,
      getAttr s.attrs (mkName (pyLower el) "logeps") = some lx ∧
      dictGet solar el = some sx ∧
      getAttr s1.attrs (mkName (pyLower el) "h") = some (lx - sx)) ∧
    (∀ s2, s1.hToLogeps solar = .ok s2 →
      ∀ el ∈ s.elements,
        getAttr s2.attrs (mkName (pyLower el) "logeps")
          = getAttr s.attrs (mkName (pyLower el) "logeps")) := by
  obtain ⟨hl1, he1, -, -⟩ := ChemAbund.logepsToH_ok h1
  have part1 := logepsToHLoop_write hl1 hclean hnodup
  refine ⟨part1, ?_⟩
  intro s2 h2 el hmem
  obtain ⟨hl2, he2, -, -⟩ := ChemAbund.hToLogeps_ok h2
  rw [he1] at hl2
  obtain ⟨xh, sx, hxh, hsx, hw⟩ := hToLogepsLoop_write hl2 hclean hnodup el hmem
  obtain ⟨lx, sx', hlx, hsx', hh⟩ := part1 el hmem
  rw [hxh] at hh
  rw [hsx] at hsx'
  cases hh
  cases hsx'
  rw [hlx, hw, show lx - sx + sx = lx by abel]





theorem logeps_h_roundtrip_witness :
    c4s.logepsToH c4solar = .ok c4s1 ∧
    ((∀ el ∈ c4s.elements, ∃ lx sx,
      getAttr c4s.attrs (mkName (pyLower el) "logeps") = some lx ∧
      dictGet c4solar el = some sx ∧
      getAttr c4s1.attrs (mkName (pyLower el) "h") = some (lx - sx)) ∧
    (∀ s2, c4s1.hToLogeps c4solar = .ok s2 →
      ∀ el ∈ c4s.elements,
        getAttr s2.attrs (mkName (pyLower el) "logeps")
          = getAttr c4s.attrs (mkName (pyLower el) "logeps"))) :=
  ⟨by decide, logeps_h_roundtrip c4s c4s1 c4solar (by decide) (by decide) (by decide)⟩

/-! ## Claim C3: materialize('fe') computes [X/Fe] = [X/H] - [Fe/H] -/

/-- **C3.** On any store with the `h` system materialized (and ordinary element
symbols, i.e. none literally equal to the lowercase tag `"fe"`), after
`calculate_xref('fe')` succeeds the `fe` system is materialized and every
element's `[X/Fe]` attribute equals its `[X/H]` value minus the `[Fe/H]` value
(`fe_h`), both read from the starting store. -/
theorem calculateXref_fe (s s' : ChemAbund V)
    (hclean : ∀ el ∈ s.elements, '_' ∉ (pyLower el).data)
    (hnodup : (s.elements.map pyLower).Nodup)
    (hfe : "fe" ∉ s.elements)
    (hh : "h" ∈ s.references)
    (hok : (s.calculateXref "fe").2 = .ok s') :
    "fe" ∈ s'.references ∧
    ∀ el ∈ s.elements,
      ∃ xh feh, getAttr s.attrs (mkName (pyLower el) "h") = some xh ∧
        getAttr s.attrs (mkName "fe" "h") = some feh ∧
        getAttr s'.attrs (mkName (pyLower el) "fe") = some (xh - feh) := by
  have hfelow : pyLower "fe" = "fe" := by decide
  rw [ChemAbund.calculateXref, if_pos hh] at hok
  obtain ⟨hloop, he, hr, -⟩ := ChemAbund.hToRef_ok hok
  constructor
  · rw [hr, hfelow]
    exact mem_addRef.2 (Or.inr rfl)
  · intro el hmem
    have hne : el ≠ "fe" := fun h => hfe (h ▸ hmem)
    obtain ⟨xh, feh, hx, hf, hw⟩ :=
      @hToRefLoop_write V _ "fe" (by decide) (by decide) _ _ _
        hloop hclean hnodup el hmem hne
    rw [hfelow] at hf hw
    exact ⟨xh, feh, hx, hf, hw⟩



theorem calculateXref_fe_witness :
    ("h" ∈ c3s.references ∧ (c3s.calculateXref "fe").2 = .ok c3s') ∧
    ("fe" ∈ c3s'.references ∧
    ∀ el ∈ c3s.elements,
      ∃ xh feh, getAttr c3s.attrs (mkName (pyLower el) "h") = some xh ∧
        getAttr c3s.attrs (mkName "fe" "h") = some feh ∧
        getAttr c3s'.attrs (mkName (pyLower el) "fe") = some (xh - feh)) :=
  ⟨⟨by decide, by decide⟩,
    calculateXref_fe c3s c3s' (by decide) (by decide) (by decide) (by decide) (by decide)⟩

/-! ## Claim C9: not-materialized conditions are soft (reported, non-fatal) -/

/-- **C9.** For any store: requesting `calculate_xref` without `h` materialized
prints the advisory message, raises nothing and leaves the state unchanged; and
`format_abundances` for a tag that is not materialized prints the advisory
message, raises nothing and returns the absent result (`None`).  Callers can
thus distinguish "not ready" from a hard failure. -/
theorem not_materialized_soft (s : ChemAbund V) (reference : String) :
    ("h" ∉ s.references →
      s.calculateXref reference = ([xrefMessage reference], .ok s)) ∧
    (pyLower reference ∉ s.references →
      s.formatAbundances reference = ([formatMessage reference], .ok none)) := by
  constructor
  · intro hh
    rw [ChemAbund.calculateXref, if_neg hh]
  · intro hr
    rw [ChemAbund.formatAbundances, if_pos hr]


theorem not_materialized_soft_witness :
    ("h" ∉ c9s.references ∧
      c9s.calculateXref "Mg" = ([xrefMessage "Mg"], .ok c9s)) ∧
    (pyLower "fe" ∉ c9s.references ∧
      c9s.formatAbundances "fe" = ([formatMessage "fe"], .ok none)) :=
  ⟨⟨by decide, (not_materialized_soft c9s "Mg").1 (by decide)⟩,
    ⟨by decide, (not_materialized_soft c9s "fe").2 (by decide)⟩⟩

/-! ## Claim C8: set_solarref with neither logeps nor h materialized -/

/-- **C8 (counterexample to the claim).** In a state where neither `logeps` nor
`h` is materialized, `set_solarref` does not signal any error at all (there is
no `InconsistentState` anywhere in the code): it returns normally, merely
recording the new solar-reference name. -/
theorem setSolarref_neither_counterexample :
    ChemAbund.setSolarref (fun _ => ([] : List (String × ℤ)))
      ⟨["Fe"], ["fe"], [("fe_h", 7)], "None"⟩ "r2"
      = .ok ⟨["Fe"], ["fe"], [("fe_h", 7)], "r2"⟩ := by decide

/-- **C8 (amended).** When neither `logeps` nor `h` is materialized,
`set_solarref` performs no conversion and raises nothing: it only updates the
stored solar-reference name.  (Such states are not reachable through
construction, which always materializes `logeps` or `h`.) -/
theorem setSolarref_neither_noop (sa : String → List (String × V))
    (s : ChemAbund V) (R : String)
    (hlog : "logeps" ∉ s.references) (hh : "h" ∉ s.references) :
    s.setSolarref sa R = .ok { s with solarref := pyLower R } :=
  ChemAbund.setSolarref_none hlog hh

theorem setSolarref_neither_noop_witness :
    ("logeps" ∉ (⟨["Mg"], ["mg"], [("mg_h", 2)], "None"⟩ : ChemAbund ℤ).references ∧
      "h" ∉ (⟨["Mg"], ["mg"], [("mg_h", 2)], "None"⟩ : ChemAbund ℤ).references) ∧
    ChemAbund.setSolarref (fun _ => ([] : List (String × ℤ)))
      ⟨["Mg"], ["mg"], [("mg_h", 2)], "None"⟩ "R1"
      = .ok { (⟨["Mg"], ["mg"], [("mg_h", 2)], "None"⟩ : ChemAbund ℤ) with
          solarref := pyLower "R1" } :=
  ⟨⟨by decide, by decide⟩,
    setSolarref_neither_noop (fun _ => []) ⟨["Mg"], ["mg"], [("mg_h", 2)], "None"⟩
      "R1" (by decide) (by decide)⟩

/-! ## Claim C7: construction with no input data / an empty mapping -/

/-- **C7 (counterexample to the second half of the claim).** The empty mapping
is not "no input data": with input system `logeps` construction from `{}`
succeeds and returns an empty store, so an empty abundance mapping is not a
hard failure. -/
theorem init_empty_mapping_succeeds :
    ChemAbund.init (fun _ => ([] : List (String × ℤ))) (some []) "logeps" none
      = .ok ⟨[], ["logeps"], [], "None"⟩ := by decide

/-- **C7 (amended).** Construction called with no input data (`abundances is
None`) fails with the `TypeError` that plays the spec's `MissingAbundances`
role; an empty mapping, however, is not rejected (see the counterexample). -/
theorem init_none_fails (sa : String → List (String × V)) (reference : String)
    (sr : Option String) :
    ChemAbund.init sa none reference sr =
      .error (.typeError
        "Please enter abundances as an input dictionary in the form \x7belement: array\x7d") :=
  rfl

/-! ## Claim C6: element input system absent from the mapping -/

/-- **C6.** For every abundance mapping and every input system that is an
element symbol (not the literal tags `logeps`/`h`) absent from the mapping's
keys, construction fails with the `IndexError` that plays the spec's
`InvalidReference` role. -/
theorem init_unknown_reference (sa : String → List (String × V))
    (ab : List (String × V)) (reference : String) (sr : Option String)
    (h1 : pyLower reference ≠ "logeps") (h2 : pyLower reference ≠ "h")
    (h3 : ∀ p ∈ ab, p.1 ≠ reference) :
    ChemAbund.init sa (some ab) reference sr =
      .error (.indexError
        s!"{reference} was given as the reference but is not in the provided abundances.") := by
  have hfind : ab.find? (fun p => p.1 == reference) = none :=
    List.find?_eq_none.2 (fun p hp => by simpa using h3 p hp)
  have hcond : ¬(pyLower reference = "logeps" ∨ pyLower reference = "h") := by
    rintro (h | h)
    · exact h1 h
    · exact h2 h
  have hisnone : (ab.find? (fun p => p.1 == reference)).isNone = true := by
    rw [hfind]
    rfl
  simp only [ChemAbund.init]
  rw [if_neg hcond, if_pos hisnone]

theorem init_unknown_reference_witness :
    ((pyLower "Fe" ≠ "logeps") ∧ (∀ p ∈ [(("C" : String), (8 : ℤ))], p.1 ≠ "Fe")) ∧
    ChemAbund.init (fun _ => ([] : List (String × ℤ))) (some [("C", 8)]) "Fe" none =
      .error (.indexError
        s!"Fe was given as the reference but is not in the provided abundances.") :=
  ⟨⟨by decide, by decide⟩,
    init_unknown_reference (fun _ => []) [("C", 8)] "Fe" none
      (by decide) (by decide) (by decide)⟩

/-! ## Claim C5: construction from bare logeps with Fe tracked -/

/-- **C5 (the code at the claim's own inputs).** Constructing from
`{C: 8.0, Fe: 7.0}` with input system `logeps` and no solar reference does
*not* complete: the automatic Fe materialization at the end of `__init__`
calls `_h_to_ref('Fe')` without checking that `h` is materialized, and that
loop raises `AttributeError` on the missing attribute `c_h`.  The claim (and
the spec's "fails silently / no-op if `h` unavailable yet") describes the
intended guard that `calculate_xref` has but `__init__` lacks. -/
theorem init_logeps_no_solar_raises :
    ChemAbund.init (fun _ => ([] : List (String × ℤ)))
      (some [("C", 8), ("Fe", 7)]) "logeps" none
      = .error (.attributeError "c_h") := by decide

/-! ## Claim C10: the materialized set grows monotonically -/

/-- **C10.** Every mutating operation on a constructed store — `set_solarref`
and `calculate_xref` — only ever adds tags to the set of materialized
reference systems; no previously materialized tag is removed.
(`format_abundances`, the export operation, is modelled without a resulting
state at all because the method contains no write to `self`, so it trivially
leaves the materialized set unchanged.) -/
theorem references_monotone (s : ChemAbund V) :
    (∀ (sa : String → List (String × V)) (R : String) (s' : ChemAbund V),
      s.setSolarref sa R = .ok s' → ∀ t ∈ s.references, t ∈ s'.references) ∧
    (∀ (r : String) (s' : ChemAbund V),
      (s.calculateXref r).2 = .ok s' → ∀ t ∈ s.references, t ∈ s'.references) := by
  constructor
  · intro sa R s' hok t ht
    by_cases hlog : "logeps" ∈ s.references
    · obtain ⟨s1, s2, s3, h1, h2, h3, rfl⟩ := ChemAbund.setSolarref_ok_logeps hlog hok
      obtain ⟨-, -, hr1, -⟩ := ChemAbund.logepsToH_ok h1
      have ht1 : t ∈ s1.references := hr1 ▸ mem_addRef_of_mem ht
      have ht2 : t ∈ s2.references := (foldHToRef_ok h2).2.2 t ht1
      rcases h3 with ⟨-, h3⟩ | ⟨-, rfl⟩
      · obtain ⟨-, -, hr3, -⟩ := ChemAbund.hToRef_ok h3
        exact hr3 ▸ mem_addRef_of_mem ht2
      · exact ht2
    · by_cases hh : "h" ∈ s.references
      · obtain ⟨s3, h3, rfl⟩ := ChemAbund.setSolarref_ok_h hlog hh hok
        obtain ⟨-, -, hr3, -⟩ := ChemAbund.hToLogeps_ok h3
        exact hr3 ▸ mem_addRef_of_mem ht
      · rw [ChemAbund.setSolarref_none hlog hh] at hok
        cases hok
        exact ht
  · intro r s' hok t ht
    by_cases hh : "h" ∈ s.references
    · rw [ChemAbund.calculateXref, if_pos hh] at hok
      obtain ⟨-, -, hr, -⟩ := ChemAbund.hToRef_ok hok
      exact hr ▸ mem_addRef_of_mem ht
    · rw [ChemAbund.calculateXref, if_neg hh] at hok
      cases hok
      exact ht



theorem references_monotone_witness :
    (c10s.setSolarref (fun _ => [("Fe", 1)]) "R1" =
        .ok ⟨["Fe"], ["logeps", "h", "fe"], [("fe_h", 6), ("fe_logeps", 7)], "r1"⟩ ∧
      ∀ t ∈ c10s.references,
        t ∈ (⟨["Fe"], ["logeps", "h", "fe"], [("fe_h", 6), ("fe_logeps", 7)],
          "r1"⟩ : ChemAbund ℤ).references) ∧
    ((c10t.calculateXref "fe").2 =
        .ok ⟨["C", "Fe"], ["h", "fe"],
          [("fe_fe", 0), ("c_fe", 1), ("c_h", 8), ("fe_h", 7)], "None"⟩ ∧
      ∀ t ∈ c10t.references,
        t ∈ (⟨["C", "Fe"], ["h", "fe"],
          [("fe_fe", 0), ("c_fe", 1), ("c_h", 8), ("fe_h", 7)],
          "None"⟩ : ChemAbund ℤ).references) :=
  ⟨⟨by decide, (references_monotone c10s).1 (fun _ => [("Fe", 1)]) "R1" _ (by decide)⟩,
    ⟨by decide, (references_monotone c10t).2 "fe" _ (by decide)⟩⟩

/-! ## Idempotence of lower-casing -/

theorem char_toNat_ofNat {n : Nat} (h : n.isValidChar) : (Char.ofNat n).toNat = n := by
  rw [Char.ofNat, dif_pos h]
  simp [Char.ofNatAux, Char.toNat, UInt32.toNat, BitVec.toNat_ofNatLt]

theorem char_toLower_idem (c : Char) : c.toLower.toLower = c.toLower := by
  unfold Char.toLower
  by_cases h : c.toNat ≥ 65 ∧ c.toNat ≤ 90
  · rw [if_pos h]
    have hv : (c.toNat + 32).isValidChar := Or.inl (by omega)
    have ht : (Char.ofNat (c.toNat + 32)).toNat = c.toNat + 32 := char_toNat_ofNat hv
    rw [if_neg]
    rw [ht]
    omega
  · rw [if_neg h, if_neg h]

theorem pyLower_idem (s : String) : pyLower (pyLower s) = pyLower s := by
  apply String.ext
  simp only [pyLower, List.map_map]
  exact List.map_congr_left (fun c _ => char_toLower_idem c)

/-! ## Lemmas for `_set_data` and `format_abundances` -/

theorem setDataLoop_frame {reference : String} :
    ∀ {ab : List (String × V)} {attrs : Attrs V} (n : String),
      (∀ p ∈ ab, n ≠ mkName (pyLower p.1) "h" ∧
        n ≠ mkName (pyLower p.1) (pyLower reference)) →
      getAttr (setDataLoop reference ab attrs) n = getAttr attrs n := by
  intro ab
  induction ab with
  | nil => intro attrs n _; rfl
  | cons p rest ih =>
    intro attrs n hn
    obtain ⟨el, v⟩ := p
    rw [setDataLoop]
    by_cases he : pyLower el = reference
    · rw [if_pos he, ih n (fun q hq => hn q (List.mem_cons_of_mem _ hq))]
      exact getAttr_setAttr_ne _ _ (hn (el, v) (List.mem_cons_self _ _)).1
    · rw [if_neg he, ih n (fun q hq => hn q (List.mem_cons_of_mem _ hq))]
      exact getAttr_setAttr_ne _ _ (hn (el, v) (List.mem_cons_self _ _)).2

theorem setDataLoop_write {reference : String} :
    ∀ {ab : List (String × V)} {attrs : Attrs V},
      (∀ p ∈ ab, '_' ∉ (pyLower p.1).data) →
      (ab.map (fun p => pyLower p.1)).Nodup →
      ∀ p ∈ ab,
        (pyLower p.1 = reference →
          getAttr (setDataLoop reference ab attrs) (mkName (pyLower p.1) "h") = some p.2) ∧
        (pyLower p.1 ≠ reference →
          getAttr (setDataLoop reference ab attrs)
            (mkName (pyLower p.1) (pyLower reference)) = some p.2) := by
  intro ab
  induction ab with
  | nil =>
    intro _ _ _ p hmem
    exact absurd hmem (List.not_mem_nil p)
  | cons q rest ih =>
    intro attrs hclean hnodup p hmem
    obtain ⟨el, v⟩ := q
    rw [List.map_cons, List.nodup_cons] at hnodup
    rcases List.mem_cons.1 hmem with rfl | hmem'
    · -- the head pair survives the rest of the loop
      have hsurv : ∀ (name : String) (w : V), name = mkName (pyLower el) "h" ∨
          name = mkName (pyLower el) (pyLower reference) →
          getAttr (setDataLoop reference rest (setAttr attrs name w)) name = some w := by
        intro name w hname
        rw [setDataLoop_frame name ?_]
        · exact getAttr_setAttr_self _ _ _
        · intro r hr
          have hrc : '_' ∉ (pyLower r.1).data := hclean r (List.mem_cons_of_mem _ hr)
          have helc : '_' ∉ (pyLower el).data := hclean (el, v) (List.mem_cons_self _ _)
          have hne : pyLower r.1 ≠ pyLower el := fun hl =>
            hnodup.1 (hl ▸ List.mem_map_of_mem (fun p => pyLower p.1) hr)
          rcases hname with rfl | rfl
          · exact ⟨mkName_ne_fst helc hrc (fun hl => hne hl.symm),
              mkName_ne_fst helc hrc (fun hl => hne hl.symm)⟩
          · exact ⟨mkName_ne_fst helc hrc (fun hl => hne hl.symm),
              mkName_ne_fst helc hrc (fun hl => hne hl.symm)⟩
      constructor
      · intro he
        rw [setDataLoop, if_pos he]
        exact hsurv _ v (Or.inl rfl)
      · intro he
        rw [setDataLoop, if_neg he]
        exact hsurv _ v (Or.inr rfl)
    · -- a pair of the tail
      constructor
      · intro he
        rw [setDataLoop]
        by_cases hel : pyLower el = reference
        · rw [if_pos hel]
          exact (ih (fun r hr => hclean r (List.mem_cons_of_mem _ hr)) hnodup.2 p hmem').1 he
        · rw [if_neg hel]
          exact (ih (fun r hr => hclean r (List.mem_cons_of_mem _ hr)) hnodup.2 p hmem').1 he
      · intro he
        rw [setDataLoop]
        by_cases hel : pyLower el = reference
        · rw [if_pos hel]
          exact (ih (fun r hr => hclean r (List.mem_cons_of_mem _ hr)) hnodup.2 p hmem').2 he
        · rw [if_neg hel]
          exact (ih (fun r hr => hclean r (List.mem_cons_of_mem _ hr)) hnodup.2 p hmem').2 he

theorem formatLoop_self {attrs : Attrs V} {reference : String} :
    ∀ {els : List String} {out : List (String × V)},
      formatLoop attrs reference els = .ok out → reference ∈ els →
      dictGet out reference = getAttr attrs (mkName (pyLower reference) "h") := by
  intro els
  induction els with
  | nil =>
    intro out _ hmem
    exact absurd hmem (List.not_mem_nil reference)
  | cons el rest ih =>
    intro out h hmem
    rw [formatLoop] at h
    by_cases he : el = reference
    · rw [if_pos he] at h
      split at h
      · cases h
      · rename_i v hv
        split at h
        · cases h
        · rename_i out' hout
          cases h
          subst he
          simp only [dictGet, List.find?_cons, beq_self_eq_true]
          exact hv.symm
    · rw [if_neg he] at h
      split at h
      · cases h
      · rename_i v hv
        split at h
        · cases h
        · rename_i out' hout
          cases h
          have hmem' : reference ∈ rest := by
            rcases List.mem_cons.1 hmem with rfl | hm
            · exact absurd rfl he
            · exact hm
          have hskip : (el == reference) = false := by simp [he]
          simp only [dictGet, List.find?_cons, hskip]
          exact ih hout hmem'

theorem ChemAbund.init_element_ok {sa : String → List (String × V)}
    {ab : List (String × V)} {E : String} {s : ChemAbund V}
    (h1 : pyLower E ≠ "logeps") (h2 : pyLower E ≠ "h")
    (hok : ChemAbund.init sa (some ab) E none = .ok s) :
    ∃ s1, (ChemAbund.setData ⟨[], [], [], "None"⟩ ab (pyLower E)).refToH E = .ok s1 ∧
      (("Fe" ∈ s1.elements ∧ "fe" ∉ s1.references) ∧ s1.hToRef "Fe" = .ok s ∨
        ¬("Fe" ∈ s1.elements ∧ "fe" ∉ s1.references) ∧ s = s1) := by
  have hcond : ¬(pyLower E = "logeps" ∨ pyLower E = "h") := by
    rintro (h | h)
    · exact h1 h
    · exact h2 h
  simp only [ChemAbund.init] at hok
  rw [if_neg hcond] at hok
  by_cases hfind : (ab.find? (fun p => p.1 == E)).isNone = true
  · rw [if_pos hfind] at hok
    cases hok
  · rw [if_neg hfind] at hok
    simp only [initAfterSet] at hok
    rw [if_pos ⟨h1, h2⟩] at hok
    split at hok
    · cases hok
    · rename_i x1 s1 heq1
      split at hok <;> rename_i hok2
      · exact ⟨s1, heq1, Or.inl ⟨hok2, hok⟩⟩
      · cases hok
        exact ⟨s, heq1, Or.inr ⟨hok2, rfl⟩⟩

/-! ## Claim C2: anchor convention of element-referenced construction -/


/-- **C2.** Constructing from `{C: 8, Fe: 7}` with `input_system='Fe'` yields a
store whose `export('h')` is `C ↦ 15, Fe ↦ 7`; in general, when the input
system is a reference element `E` of the mapping, `E`'s own raw value is
stored directly as its `h` attribute (the anchor is folded into `h`), every
other element's `h` attribute is its relative input value plus `E`'s raw
value; and in any successfully exported system, the element equal to the
requested reference tag contributes its `h` value (never a synthetic zero). -/
theorem construction_anchor_convention :
    (ChemAbund.init (fun _ => ([] : List (String × ℤ)))
        (some [("C", 8), ("Fe", 7)]) "Fe" none = .ok c2s) ∧
    (c2s.formatAbundances "h" = ([], .ok (some [("C", 15), ("Fe", 7)]))) ∧
    (∀ (sa : String → List (String × V)) (ab : List (String × V)) (E : String)
        (vE : V) (s : ChemAbund V),
      (∀ p ∈ ab, '_' ∉ (pyLower p.1).data) →
      (ab.map (fun p => pyLower p.1)).Nodup →
      (E, vE) ∈ ab → pyLower E ≠ "logeps" → pyLower E ≠ "h" →
      ChemAbund.init sa (some ab) E none = .ok s →
      getAttr s.attrs (mkName (pyLower E) "h") = some vE ∧
      ∀ p ∈ ab, p.1 ≠ E →
        getAttr s.attrs (mkName (pyLower p.1) "h") = some (p.2 + vE)) ∧
    (∀ (s : ChemAbund V) (t : String) (out : List (String × V)),
      (s.formatAbundances t).2 = .ok (some out) → t ∈ s.elements →
      dictGet out t = getAttr s.attrs (mkName (pyLower t) "h")) := by
  refine ⟨by decide, by decide, ?_, ?_⟩
  · intro sa ab E vE s hclean hnodup hE h1 h2 hok
    obtain ⟨s1, href, hfe⟩ := ChemAbund.init_element_ok h1 h2 hok
    obtain ⟨hloop, he1, -, -⟩ := ChemAbund.refToH_ok href
    set sd := ChemAbund.setData ⟨[], [], [], "None"⟩ ab (pyLower E) with hsd
    have hsdel : sd.elements = ab.map Prod.fst := rfl
    have hsdat : sd.attrs = setDataLoop (pyLower E) ab [] := rfl
    have hEel : E ∈ sd.elements := by
      rw [hsdel]
      exact List.mem_map_of_mem Prod.fst hE
    have helclean : ∀ el ∈ sd.elements, '_' ∉ (pyLower el).data := by
      rw [hsdel]
      intro el hel
      obtain ⟨p, hp, rfl⟩ := List.mem_map.1 hel
      exact hclean p hp
    have helnodup : (sd.elements.map pyLower).Nodup := by
      rw [hsdel, List.map_map]
      exact hnodup
    have hlow : ∀ el ∈ sd.elements, el ≠ E → pyLower el ≠ pyLower E := by
      intro el hel hne hpeq
      exact hne (List.inj_on_of_nodup_map helnodup hel hEel hpeq)
    -- E's own h attribute at the stage after `_set_data`
    have hEsd : getAttr sd.attrs (mkName (pyLower E) "h") = some vE := by
      rw [hsdat]
      exact (setDataLoop_write hclean hnodup (E, vE) hE).1 rfl
    -- h attributes are preserved by the automatic-Fe step (it writes `_fe` names)
    have hfe_pres : ∀ n el', n = mkName (pyLower el') "h" → '_' ∉ (pyLower el').data →
        getAttr s.attrs n = getAttr s1.attrs n := by
      intro n el' hn hcl
      rcases hfe with ⟨hc, hstep⟩ | ⟨-, rfl⟩
      · obtain ⟨hloop2, -, -, -⟩ := ChemAbund.hToRef_ok hstep
        refine hToRefLoop_frame hloop2 n (fun e he hne => ?_)
        rw [hn]
        exact mkName_ne_snd hcl (helclean e (he1 ▸ he)) (by decide)
      · rfl
    have hEfinal : getAttr s.attrs (mkName (pyLower E) "h") = some vE := by
      rw [hfe_pres _ E rfl (hclean (E, vE) hE)]
      rw [refToHLoop_frame hloop _ (fun e he hne => mkName_ne_fst
        (hclean (E, vE) hE) (helclean e he) (fun hl => hlow e he hne hl.symm))]
      exact hEsd
    refine ⟨hEfinal, ?_⟩
    intro p hp hne
    have hpel : p.1 ∈ sd.elements := by
      rw [hsdel]
      exact List.mem_map_of_mem Prod.fst hp
    obtain ⟨xr, refh, hxr, hrefh, hw⟩ :=
      @refToHLoop_write V _ E (hclean (E, vE) hE) h2 _ _ _
        hloop helclean helnodup hlow p.1 hpel hne
    -- identify the two reads with the raw `_set_data` values
    have hxr2 : getAttr sd.attrs (mkName (pyLower p.1) (pyLower E)) = some p.2 := by
      have hraw := (@setDataLoop_write V _ (pyLower E) ab [] hclean hnodup p hp).2
        (hlow p.1 hpel hne)
      rwa [pyLower_idem E] at hraw
    rw [hxr2] at hxr
    cases hxr
    rw [hEsd] at hrefh
    cases hrefh
    rw [hfe_pres _ p.1 rfl (hclean p hp)]
    exact hw
  · intro s t out hok ht
    rw [ChemAbund.formatAbundances] at hok
    by_cases hg : pyLower t ∉ s.references
    · rw [if_pos hg] at hok
      simp at hok
    · rw [if_neg hg] at hok
      split at hok
      · simp at hok
      · rename_i out' hout
        simp only at hok
        cases hok
        exact formatLoop_self hout ht

theorem construction_anchor_convention_witness :
    ((∀ p ∈ [(("C" : String), (8 : ℤ)), ("Fe", 7)], '_' ∉ (pyLower p.1).data) ∧
      ChemAbund.init (fun _ => ([] : List (String × ℤ)))
        (some [("C", 8), ("Fe", 7)]) "Fe" none = .ok c2s) ∧
    (getAttr c2s.attrs (mkName (pyLower "Fe") "h") = some 7 ∧
      ∀ p ∈ [(("C" : String), (8 : ℤ)), ("Fe", 7)], p.1 ≠ "Fe" →
        getAttr c2s.attrs (mkName (pyLower p.1) "h") = some (p.2 + 7)) ∧
    ((c2s.formatAbundances "Fe").2 = .ok (some [("C", 8), ("Fe", 7)]) ∧
      dictGet ([("C", 8), ("Fe", 7)] : List (String × ℤ)) "Fe"
        = getAttr c2s.attrs (mkName (pyLower "Fe") "h")) :=
  ⟨⟨by decide, by decide⟩,
    (@construction_anchor_convention ℤ _).2.2.1 (fun _ => []) [("C", 8), ("Fe", 7)]
      "Fe" 7 c2s (by decide) (by decide) (by decide) (by decide) (by decide) (by decide),
    ⟨by decide, (@construction_anchor_convention ℤ _).2.2.2 c2s "Fe" [("C", 8), ("Fe", 7)]
      (by decide) (by decide)⟩⟩

/-! ## Claim C1: a solar-reference switch refreshes h and recomputes [X/ref] -/

/-- **C1.** On a store whose `logeps` system is materialized and that also has
a non-`logeps`, non-`h` reference system `r` materialized (a lowercase,
well-formed tag, as every tag the code stores is), a successful
`set_solarref(R2)` first refreshes `h` for every element from `logeps` under
the new solar table `sa R2`, and afterwards, for every element `X` other than
the anchor `r.title()` itself, the stored `[X/r]` attribute equals the
refreshed `[X/H]` minus the refreshed `[r/H]` — the recomputed value under R2,
not a value surviving from a previous solar reference. -/
theorem setSolarref_recomputes
    (sa : String → List (String × V)) (s s' : ChemAbund V) (R2 r : String)
    (hclean : ∀ el ∈ s.elements, '_' ∉ (pyLower el).data)
    (hnodup : (s.elements.map pyLower).Nodup)
    (hrefnd : s.references.Nodup)
    (hrefinv : ∀ t ∈ s.references, '_' ∉ t.data ∧ pyLower (pyTitle t) = t)
    (hlog : "logeps" ∈ s.references)
    (hr : r ∈ s.references) (hrl : r ≠ "logeps") (hrh : r ≠ "h")
    (hok : s.setSolarref sa R2 = .ok s') :
    (∀ el ∈ s.elements, ∃ lx sx,
      getAttr s.attrs (mkName (pyLower el) "logeps") = some lx ∧
      dictGet (sa R2) el = some sx ∧
      getAttr s'.attrs (mkName (pyLower el) "h") = some (lx - sx)) ∧
    (∀ el ∈ s.elements, el ≠ pyTitle r → ∃ xh rh,
      getAttr s'.attrs (mkName (pyLower el) "h") = some xh ∧
      getAttr s'.attrs (mkName r "h") = some rh ∧
      getAttr s'.attrs (mkName (pyLower el) r) = some (xh - rh)) := by
  have htitle_r : pyLower (pyTitle r) = r := (hrefinv r hr).2
  have hclean_r : '_' ∉ r.data := (hrefinv r hr).1
  obtain ⟨s1, s2, s3, h1, h2, h3, rfl⟩ := ChemAbund.setSolarref_ok_logeps hlog hok
  obtain ⟨hl1, he1, hrf1, -⟩ := ChemAbund.logepsToH_ok h1
  have hWrite1 := logepsToHLoop_write hl1 hclean hnodup
  -- the runlist and the membership of r in it
  have hrl_mem : ∀ t ∈ s1.references.filter (fun t => t != "logeps" && t != "h"),
      t ∈ s.references ∧ t ≠ "logeps" ∧ t ≠ "h" := by
    intro t ht
    obtain ⟨ht1, hp⟩ := List.mem_filter.1 ht
    rw [Bool.and_eq_true, bne_iff_ne, bne_iff_ne] at hp
    refine ⟨?_, hp.1, hp.2⟩
    rcases mem_addRef.1 (hrf1 ▸ ht1) with h | h
    · exact h
    · exact absurd h hp.2
  have hrl_inv : ∀ t ∈ s1.references.filter (fun t => t != "logeps" && t != "h"),
      '_' ∉ t.data ∧ pyLower (pyTitle t) = t ∧ t ≠ "h" := by
    intro t ht
    obtain ⟨hts, -, hth⟩ := hrl_mem t ht
    exact ⟨(hrefinv t hts).1, (hrefinv t hts).2, hth⟩
  have hr_in_rl : r ∈ s1.references.filter (fun t => t != "logeps" && t != "h") := by
    refine List.mem_filter.2 ⟨hrf1 ▸ mem_addRef_of_mem hr, ?_⟩
    rw [Bool.and_eq_true, bne_iff_ne, bne_iff_ne]
    exact ⟨hrl, hrh⟩
  have hrl_nodup : (s1.references.filter (fun t => t != "logeps" && t != "h")).Nodup :=
    List.Nodup.filter _ (hrf1 ▸ addRef_nodup hrefnd)
  -- split the runlist at r and decompose the fold
  obtain ⟨l1, l2, hsplit⟩ := List.append_of_mem hr_in_rl
  have hnd_split : (l1 ++ r :: l2).Nodup := hsplit ▸ hrl_nodup
  obtain ⟨hnd1, hnd2, hdisj⟩ := List.nodup_append.1 hnd_split
  have hr_not_l2 : r ∉ l2 := (List.nodup_cons.1 hnd2).1
  have hr_not_l1 : r ∉ l1 := fun hmem => hdisj hmem (List.mem_cons_self _ _)
  have hfold := h2
  rw [hsplit, foldHToRef_append] at hfold
  split at hfold
  · cases hfold
  · rename_i s_a heqa
    rw [foldHToRef] at hfold
    split at hfold
    · cases hfold
    · rename_i s_r heqr
      obtain ⟨hlooprr, herr, hrefr, -⟩ := ChemAbund.hToRef_ok heqr
      have hselA : s_a.elements = s.elements := (foldHToRef_ok heqa).1.trans he1
      have hselR : s_r.elements = s.elements := herr.trans hselA
      have hsel2 : s2.elements = s.elements := (foldHToRef_ok hfold).1.trans hselR
      have hr_s2 : r ∈ s2.references :=
        (foldHToRef_ok hfold).2.2 r (hrefr ▸ mem_addRef_of_mem
          ((foldHToRef_ok heqa).2.2 r (hrf1 ▸ mem_addRef_of_mem hr)))
      have hmem_l1 : ∀ t ∈ l1, t ∈ s1.references.filter (fun t => t != "logeps" && t != "h") := by
        intro t ht
        rw [hsplit]
        exact List.mem_append_left _ ht
      have hmem_l2 : ∀ t ∈ l2, t ∈ s1.references.filter (fun t => t != "logeps" && t != "h") := by
        intro t ht
        rw [hsplit]
        exact List.mem_append_right _ (List.mem_cons_of_mem _ ht)
      -- `_h` attributes are unchanged from s1 to s_a (the l1 passes)
      have hHa : ∀ a : String, '_' ∉ a.data →
          getAttr s_a.attrs (mkName a "h") = getAttr s1.attrs (mkName a "h") := by
        intro a ha
        refine foldHToRef_frame heqa _ (fun t ht e he hne => ?_)
        have hinv := hrl_inv t (hmem_l1 t ht)
        rw [hinv.2.1]
        exact mkName_ne_snd ha (hclean e (he1 ▸ he)) (fun hh => hinv.2.2 hh.symm)
      -- `_h` attributes are unchanged from s_a to the final state
      have hHb : ∀ a : String, '_' ∉ a.data →
          getAttr s3.attrs (mkName a "h") = getAttr s_a.attrs (mkName a "h") := by
        intro a ha
        have e3 : getAttr s3.attrs (mkName a "h") = getAttr s2.attrs (mkName a "h") := by
          rcases h3 with ⟨hc, hstep⟩ | ⟨-, rfl⟩
          · obtain ⟨hlp, -, -, -⟩ := ChemAbund.hToRef_ok hstep
            refine hToRefLoop_frame hlp _ (fun e he hne => ?_)
            exact mkName_ne_snd ha (hclean e (hsel2 ▸ he)) (by decide)
          · rfl
        have e2 : getAttr s2.attrs (mkName a "h") = getAttr s_r.attrs (mkName a "h") := by
          refine foldHToRef_frame hfold _ (fun t ht e he hne => ?_)
          have hinv := hrl_inv t (hmem_l2 t ht)
          rw [hinv.2.1]
          exact mkName_ne_snd ha (hclean e (hselR ▸ he)) (fun hh => hinv.2.2 hh.symm)
        have er : getAttr s_r.attrs (mkName a "h") = getAttr s_a.attrs (mkName a "h") := by
          refine hToRefLoop_frame hlooprr _ (fun e he hne => ?_)
          rw [htitle_r]
          exact mkName_ne_snd ha (hclean e (hselA ▸ he)) (fun hh => hrh hh.symm)
        rw [e3, e2, er]
      -- `_r` attributes are unchanged from s_r to the final state
      have hRp : ∀ a : String, '_' ∉ a.data →
          getAttr s3.attrs (mkName a r) = getAttr s_r.attrs (mkName a r) := by
        intro a ha
        have e3 : getAttr s3.attrs (mkName a r) = getAttr s2.attrs (mkName a r) := by
          rcases h3 with ⟨hc, hstep⟩ | ⟨-, rfl⟩
          · obtain ⟨hlp, -, -, -⟩ := ChemAbund.hToRef_ok hstep
            refine hToRefLoop_frame hlp _ (fun e he hne => ?_)
            refine mkName_ne_snd ha (hclean e (hsel2 ▸ he)) (fun hh => ?_)
            have : r = "fe" := by
              rw [hh]
              decide
            exact hc.2 (this ▸ hr_s2)
          · rfl
        have e2 : getAttr s2.attrs (mkName a r) = getAttr s_r.attrs (mkName a r) := by
          refine foldHToRef_frame hfold _ (fun t ht e he hne => ?_)
          have hinv := hrl_inv t (hmem_l2 t ht)
          rw [hinv.2.1]
          exact mkName_ne_snd ha (hclean e (hselR ▸ he))
            (fun hh => hr_not_l2 (hh ▸ ht))
        rw [e3, e2]
      constructor
      · -- h refreshed from logeps under the new table, for every element
        intro el hmem
        obtain ⟨lx, sx, hlx, hsx, hh1⟩ := hWrite1 el hmem
        refine ⟨lx, sx, hlx, hsx, ?_⟩
        show getAttr s3.attrs _ = _
        rw [hHb _ (hclean el hmem), hHa _ (hclean el hmem)]
        exact hh1
      · -- [X/r] recomputed from the refreshed h values
        intro el hmem hne
        have hclean_sa : ∀ e ∈ s_a.elements, '_' ∉ (pyLower e).data :=
          fun e he => hclean e (hselA ▸ he)
        have hnodup_sa : (s_a.elements.map pyLower).Nodup := by
          rw [hselA]
          exact hnodup
        obtain ⟨xh, refh, hxh, hrefh, hwr⟩ :=
          hToRefLoop_write (by rw [htitle_r]; exact hclean_r)
            (by rw [htitle_r]; exact hrh) hlooprr hclean_sa hnodup_sa
            el (hselA ▸ hmem) hne
        rw [htitle_r] at hrefh hwr
        refine ⟨xh, refh, ?_, ?_, ?_⟩
        · show getAttr s3.attrs _ = _
          rw [hHb _ (hclean el hmem)]
          exact hxh
        · show getAttr s3.attrs _ = _
          rw [hHb _ hclean_r]
          exact hrefh
        · show getAttr s3.attrs _ = _
          rw [hRp _ (hclean el hmem)]
          exact hwr




theorem setSolarref_recomputes_witness :
    (("logeps" ∈ c1s.references ∧ "mg" ∈ c1s.references) ∧
      c1s.setSolarref c1sa "R2" = .ok c1s') ∧
    ((∀ el ∈ c1s.elements, ∃ lx sx,
      getAttr c1s.attrs (mkName (pyLower el) "logeps") = some lx ∧
      dictGet (c1sa "R2") el = some sx ∧
      getAttr c1s'.attrs (mkName (pyLower el) "h") = some (lx - sx)) ∧
    (∀ el ∈ c1s.elements, el ≠ pyTitle "mg" → ∃ xh rh,
      getAttr c1s'.attrs (mkName (pyLower el) "h") = some xh ∧
      getAttr c1s'.attrs (mkName "mg" "h") = some rh ∧
      getAttr c1s'.attrs (mkName (pyLower el) "mg") = some (xh - rh))) :=
  ⟨⟨⟨by decide, by decide⟩, by decide⟩,
    setSolarref_recomputes c1sa c1s c1s' "R2" "mg" (by decide) (by decide)
      (by decide) (by decide) (by decide) (by decide) (by decide) (by decide)
      (by decide)⟩
